import Mathlib

/-!
Shallow embedding of `libavfilter/af_dumpwave.c` (the `dumpwave` audio filter).

The filter consumes interleaved signed 16-bit PCM frames, accumulates a
perceptually-remapped sum of squares over windows of samples, commits one RMS
value per window into a fixed-width array `values`, tracks the running peak,
and at end-of-stream renders each column as `(int)(h * exp(v / max * M_E - M_E))`
joined by commas.

Doubles and floats are modelled as real numbers; C `int` / `int64_t` counters
that never go negative are modelled as `ℕ`; the narrowing conversion
`(int16_t)frame->nb_samples` is modelled explicitly on `ℤ`.  The
`av_assert0(*col < ch_width)` abort is modelled by returning `none`.
-/

/-- State of the filter, embedding the fields of `DumpWaveContext` that the
waveform computation uses: geometry `w`/`h`, window size `c` (option
`max_samples`), the column cursor `col`, the in-window counter `n`, the
running sum of squares `sum`, the running peak `max`, and the per-column
RMS array `values`. -/
structure DumpWaveContext where
  w : ℕ
  h : ℕ
  c : ℕ
  col : ℕ
  n : ℕ
  sum : ℝ
  max : ℝ
  values : List ℝ

/-- Embeds `init` (af_dumpwave.c:74-82) together with the framework's
allocation of the private context.  The framework allocates the context
zero-filled before calling `init` (modelled from the spec: "AccumulatorState
zeroed", the allocation itself lives outside this file); `init` then
allocates `values` with `av_malloc`, which does NOT zero the buffer — its
indeterminate contents are taken here as the parameter `raw`. -/
def initContext (w h c : ℕ) (raw : List ℝ) : DumpWaveContext :=
  { w := w, h := h, c := c, col := 0, n := 0, sum := 0, max := 0, values := raw }

/-- Per-sample remap (af_dumpwave.c:199-208): `smpl = s16 / INT16_MAX`; when
`smpl` is nonzero, `db = 20*log10(|smpl|)`, `smpl = (db + 60)/60`, clamped
below at `0`. -/
noncomputable def processSample (s : ℤ) : ℝ :=
  let smpl : ℝ := (s : ℝ) / 32767
  if smpl ≠ 0 then
    let db : ℝ := 20 * Real.logb 10 |smpl|
    let smpl2 : ℝ := (db + 60) / 60
    if smpl2 < 0 then 0 else smpl2
  else smpl

/-- The sum-of-squares accumulation `*sum += smpl*smpl` (af_dumpwave.c:209). -/
noncomputable def accumulatedSum (ctx : DumpWaveContext) (s : ℤ) : ℝ :=
  ctx.sum + processSample s * processSample s

/-- One iteration of the sample loop (af_dumpwave.c:197-222): accumulate the
remapped square, then check the post-increment window boundary
`(*n)++ == max_samples`.  On a full window: `av_assert0(*col < ch_width)`
(modelled as `none` on failure), commit `sqrt(sum / max_samples)` into
`values[col]`, update the running peak, advance the column and reset the
accumulator. -/
noncomputable def ingestSample (ctx : DumpWaveContext) (s : ℤ) : Option DumpWaveContext :=
  let sum' := accumulatedSum ctx s
  if ctx.n = ctx.c then
    if ctx.col < ctx.w then
      let sample := Real.sqrt (sum' / (ctx.c : ℝ))
      some { ctx with
        values := ctx.values.set ctx.col sample,
        sum := 0,
        max := max ctx.max sample,
        col := ctx.col + 1,
        n := 0 }
    else none
  else
    some { ctx with sum := sum', n := ctx.n + 1 }

/-- Runs the sample loop of `dumpwave_filter_frame` over a list of
(first-channel) samples. -/
noncomputable def ingest (ctx : DumpWaveContext) : List ℤ → Option DumpWaveContext
  | [] => some ctx
  | s :: rest =>
    match ingestSample ctx s with
    | none => none
    | some ctx' => ingest ctx' rest

/-- Narrowing conversion from a C `int` to `int16_t` (two's-complement wrap),
as performed by `const int16_t nb_samples = frame->nb_samples;`
(af_dumpwave.c:182). -/
def toInt16 (x : ℤ) : ℤ :=
  (x + 32768) % 65536 - 32768

/-- Number of loop iterations of `for (i = 0; i < nb_samples; i++)` where
`nb_samples` is the narrowed 16-bit count: zero when the narrowed value is
negative or zero, the narrowed value otherwise. -/
def processedCount (nb : ℤ) : ℕ :=
  (max 0 (toInt16 nb)).toNat

/-- An input audio frame: the C `int` sample count `nb_samples` and the
first-channel samples `data` (the loop reads `p[i*nb_channels]`, i.e. only
channel 0). -/
structure AVFrame where
  nb_samples : ℤ
  data : List ℤ

/-- Result of one `dumpwave_filter_frame` call: the updated filter state, the
frames forwarded downstream by `ff_filter_frame`, and the returned status. -/
structure FrameResult where
  ctx : DumpWaveContext
  forwarded : List AVFrame
  ret : ℤ

/-- Embeds `dumpwave_filter_frame` (af_dumpwave.c:175-230): ingest the first
`processedCount frame.nb_samples` channel-0 samples, forward the frame
downstream via `ff_filter_frame` (whose status `fwdStatus` is assigned to the
local `ret` but never propagated), and `return 0`.  The `end:` cleanup path is
unreachable.  `none` models the `av_assert0` abort, on which the function
never returns. -/
noncomputable def dumpwave_filter_frame (ctx : DumpWaveContext) (frame : AVFrame)
    (fwdStatus : ℤ) : Option FrameResult :=
  match ingest ctx (frame.data.take (processedCount frame.nb_samples)) with
  | none => none
  | some ctx' =>
    let _ret := fwdStatus
    some { ctx := ctx', forwarded := [frame], ret := 0 }

/-- Drives `dumpwave_filter_frame` over a whole stream of frames, collecting
every frame forwarded downstream in order. -/
noncomputable def processStream (ctx : DumpWaveContext) :
    List AVFrame → Option (DumpWaveContext × List AVFrame)
  | [] => some (ctx, [])
  | f :: fs =>
    match dumpwave_filter_frame ctx f 0 with
    | none => none
    | some r =>
      match processStream r.ctx fs with
      | none => none
      | some (ctxEnd, outs) => some (ctxEnd, r.forwarded ++ outs)

/-- C double-to-int conversion: truncation toward zero. -/
noncomputable def ctrunc (x : ℝ) : ℤ :=
  if 0 ≤ x then ⌊x⌋ else ⌈x⌉

/-- One column of the end-of-stream rendering (af_dumpwave.c:165-166):
`rmsSize = exp(values[i] / max * M_E - M_E); res = ch_height * rmsSize;`
where the assignment to the `int` variable `res` truncates. -/
noncomputable def renderColumn (hgt : ℕ) (maxv v : ℝ) : ℤ :=
  ctrunc ((hgt : ℝ) * Real.exp (v / maxv * Real.exp 1 - Real.exp 1))

/-- The rendering loop of `dumpwave_request_frame` at EOF
(af_dumpwave.c:164-168): every slot of `values` is mapped through
`renderColumn` with the current peak. -/
noncomputable def dumpwave_request_frame (ctx : DumpWaveContext) : List ℤ :=
  ctx.values.map (renderColumn ctx.h ctx.max)

/-- Serialization of the rendered integers: the loop writes `"%d,"` per
column and the final `pos[-1] = 0` removes the trailing separator, producing
the comma-separated join. -/
def dumpwave_serialize (l : List ℤ) : String :=
  String.intercalate "," (l.map toString)

/-- Per-sample remap as the specification words it (§4.1): `smpl = sample /
32767.0`; exact zero stays zero; otherwise `(20*log10(|smpl|) + 60) / 60`
clamped below at 0.  Stated separately from `processSample` (which follows the
C control flow) so the two can be compared. -/
noncomputable def specSampleTransform (s : ℤ) : ℝ :=
  let smpl : ℝ := (s : ℝ) / 32767
  if smpl = 0 then 0 else max 0 ((20 * Real.logb 10 |smpl| + 60) / 60)

/-- Invariant maintained by the sample loop: the `values` buffer keeps its
allocated width, the column cursor stays within bounds, the peak is
non-negative, every committed column holds a value in `[0, peak]`, the peak is
0 before the first commit and is attained by some committed column
afterwards. -/
def LoopInv (ctx : DumpWaveContext) : Prop :=
  ctx.values.length = ctx.w ∧ ctx.col ≤ ctx.w ∧ 0 ≤ ctx.max ∧
  (∀ i : ℕ, i < ctx.col → ∀ hi : i < ctx.values.length,
      0 ≤ ctx.values.get ⟨i, hi⟩ ∧ ctx.values.get ⟨i, hi⟩ ≤ ctx.max) ∧
  (ctx.col = 0 → ctx.max = 0) ∧
  (0 < ctx.col → ∃ i : ℕ, ∃ hi : i < ctx.values.length, i < ctx.col ∧
      ctx.values.get ⟨i, hi⟩ = ctx.max)

/-- The state reached from a fresh `W = 1, H = 240, C = 1` context after the
stream `[32767, 32767]`: one committed column holding RMS `√2`, peak `√2`. -/
noncomputable def sqrtTwoCtx : DumpWaveContext :=
  { w := 1, h := 240, c := 1, col := 1, n := 0, sum := 0,
    max := Real.sqrt 2, values := [Real.sqrt 2] }

/-- The state reached from a fresh `W = 2, H = 240, C = 1` context whose
`av_malloc` residue is `[0, 5]`, after the stream `[32767, 32767]`: one
committed column (`√2`, also the peak), one never-committed column still
holding the residue value `5`. -/
noncomputable def overflowCtx : DumpWaveContext :=
  { w := 2, h := 240, c := 1, col := 1, n := 0, sum := 0,
    max := Real.sqrt 2, values := [Real.sqrt 2, 5] }

/-- The state reached from a fresh `W = 2, H = 240, C = 1` context with
zeroed malloc residue after the all-zero stream `[0, 0]` of length `W*C`:
one committed all-silence column, peak 0. -/
def allZeroCtx : DumpWaveContext :=
  { w := 2, h := 240, c := 1, col := 1, n := 0, sum := 0, max := 0,
    values := [0, 0] }

lemma processSample_eq_spec (s : ℤ) : processSample s = specSampleTransform s := by
  unfold processSample specSampleTransform
  by_cases hz : (s : ℝ) / 32767 = 0
  · simp [hz]
  · simp only [hz, if_false, ne_eq, not_false_eq_true, if_true]
    rcases le_or_lt 0 ((20 * Real.logb 10 |(s : ℝ) / 32767| + 60) / 60) with hle | hlt
    · rw [if_neg (not_lt.mpr hle), max_eq_right hle]
    · rw [if_pos hlt, max_eq_left hlt.le]

/-- C2: for every ingested 16-bit sample `s`, the value added to the running
sum of squares is `smpl²`, where `smpl` is exactly the specification's
transform: `s / 32767.0`, zero kept as zero, otherwise
`(20*log10(|smpl|) + 60) / 60` clamped below at 0. -/
theorem sample_transform_spec (ctx : DumpWaveContext) (s : ℤ) :
    accumulatedSum ctx s = ctx.sum + specSampleTransform s * specSampleTransform s := by
  unfold accumulatedSum
  rw [processSample_eq_spec]

/-- C9: the per-frame sample count is narrowed to `int16_t` before the loop;
the loop trip count equals the frame count exactly when it is at most 32767,
otherwise it is the wrapped 16-bit value, and no samples are processed when
the wrapped value is negative or zero. -/
theorem nb_samples_narrowing (nb : ℤ) (hnb : 0 ≤ nb) :
    (((processedCount nb : ℤ) = nb) ↔ nb ≤ 32767) ∧
    (toInt16 nb ≤ 0 → processedCount nb = 0) ∧
    (0 < toInt16 nb → (processedCount nb : ℤ) = toInt16 nb) := by
  unfold processedCount toInt16
  constructor
  · constructor
    · intro h
      omega
    · intro h
      omega
  · constructor
    · intro h
      omega
    · intro h
      omega

/-- Witness instantiating `nb_samples_narrowing` at the concrete frame count 5. -/
theorem nb_samples_narrowing_witness :
    (0 : ℤ) ≤ 5 ∧
    ((((processedCount 5 : ℤ) = 5) ↔ (5 : ℤ) ≤ 32767) ∧
    (toInt16 5 ≤ 0 → processedCount 5 = 0) ∧
    (0 < toInt16 5 → (processedCount 5 : ℤ) = toInt16 5)) :=
  ⟨by norm_num, nb_samples_narrowing 5 (by norm_num)⟩

/-- C10: whenever `dumpwave_filter_frame` returns, it returns 0; the status of
`ff_filter_frame` is assigned but never propagated and the `end:` cleanup path
is unreachable. -/
theorem filter_frame_returns_zero (ctx : DumpWaveContext) (frame : AVFrame)
    (fwdStatus : ℤ) (r : FrameResult)
    (h : dumpwave_filter_frame ctx frame fwdStatus = some r) : r.ret = 0 := by
  unfold dumpwave_filter_frame at h
  cases hI : ingest ctx (frame.data.take (processedCount frame.nb_samples)) with
  | none => rw [hI] at h; exact absurd h (by simp)
  | some ctx' =>
    rw [hI] at h
    simp only [Option.some.injEq] at h
    rw [← h]

lemma dumpwave_filter_frame_forwarded {ctx : DumpWaveContext} {frame : AVFrame}
    {fwdStatus : ℤ} {r : FrameResult}
    (h : dumpwave_filter_frame ctx frame fwdStatus = some r) : r.forwarded = [frame] := by
  unfold dumpwave_filter_frame at h
  cases hI : ingest ctx (frame.data.take (processedCount frame.nb_samples)) with
  | none => rw [hI] at h; exact absurd h (by simp)
  | some ctx' =>
    rw [hI] at h
    simp only [Option.some.injEq] at h
    rw [← h]

/-- C7: whenever a stream of frames is processed to completion, the frames
forwarded downstream are exactly the input frames, unmodified, each exactly
once, in input order. -/
theorem frames_forwarded_unchanged (frames : List AVFrame) (ctx : DumpWaveContext)
    (res : DumpWaveContext × List AVFrame)
    (h : processStream ctx frames = some res) : res.2 = frames := by
  induction frames generalizing ctx res with
  | nil =>
    unfold processStream at h
    simp only [Option.some.injEq] at h
    rw [← h]
  | cons f fs ih =>
    unfold processStream at h
    split at h
    · exact absurd h (by simp)
    · rename_i r hF
      split at h
      · exact absurd h (by simp)
      · rename_i ctxEnd outs hS
        simp only [Option.some.injEq] at h
        have houts : outs = fs := ih r.ctx (ctxEnd, outs) hS
        rw [← h]
        simp [dumpwave_filter_frame_forwarded hF, houts]

/-- Witness running `frames_forwarded_unchanged` on one concrete empty frame. -/
theorem frames_forwarded_unchanged_witness :
    processStream (initContext 1 240 1 [0]) [⟨0, []⟩] =
      some (initContext 1 240 1 [0], [⟨0, []⟩]) ∧
    (initContext 1 240 1 [0], [(⟨0, []⟩ : AVFrame)]).2 = [⟨0, []⟩] :=
  ⟨by simp [processStream, dumpwave_filter_frame, processedCount, toInt16, ingest],
   frames_forwarded_unchanged [⟨0, []⟩] (initContext 1 240 1 [0]) _
     (by simp [processStream, dumpwave_filter_frame, processedCount, toInt16, ingest])⟩

/-- Witness instantiating `filter_frame_returns_zero` on a concrete call with
downstream status 7. -/
theorem filter_frame_returns_zero_witness :
    dumpwave_filter_frame (initContext 1 240 1 [0]) ⟨0, []⟩ 7 =
      some ⟨initContext 1 240 1 [0], [⟨0, []⟩], 0⟩ ∧
    (⟨initContext 1 240 1 [0], [⟨0, []⟩], 0⟩ : FrameResult).ret = 0 :=
  ⟨by simp [dumpwave_filter_frame, processedCount, toInt16, ingest],
   filter_frame_returns_zero (initContext 1 240 1 [0]) ⟨0, []⟩ 7 _
     (by simp [dumpwave_filter_frame, processedCount, toInt16, ingest])⟩

/-- C8: `init` allocates `values` with `av_malloc`, whose contents are
indeterminate, NOT zero-initialized: with malloc residue `[0, 5]` the array
after setup differs from the all-zero array (so a never-committed column does
not read as 0 at finalization), while the accumulator state itself
(`col`, `n`, `sum`, `max`) is zeroed by the framework allocation. -/
theorem init_values_not_zeroed :
    (initContext 2 240 1 [0, 5]).values ≠ List.replicate 2 (0 : ℝ) ∧
    (initContext 2 240 1 [0, 5]).col = 0 ∧ (initContext 2 240 1 [0, 5]).n = 0 ∧
    (initContext 2 240 1 [0, 5]).sum = 0 ∧ (initContext 2 240 1 [0, 5]).max = 0 := by
  refine ⟨?_, rfl, rfl, rfl, rfl⟩
  simp only [initContext, List.replicate, ne_eq, List.cons.injEq, and_true]
  norm_num

lemma renderColumn_eq_floor (hgt : ℕ) (maxv v : ℝ) :
    renderColumn hgt maxv v =
      ⌊(hgt : ℝ) * Real.exp (v / maxv * Real.exp 1 - Real.exp 1)⌋ := by
  unfold renderColumn ctrunc
  rw [if_pos]
  exact mul_nonneg (Nat.cast_nonneg hgt) (Real.exp_pos _).le

lemma renderColumn_range (hgt : ℕ) (maxv v : ℝ) (hm : 0 < maxv) (_h0 : 0 ≤ v)
    (hv : v ≤ maxv) :
    0 ≤ renderColumn hgt maxv v ∧ renderColumn hgt maxv v ≤ (hgt : ℤ) := by
  rw [renderColumn_eq_floor]
  constructor
  · rw [Int.floor_nonneg]
    exact mul_nonneg (Nat.cast_nonneg hgt) (Real.exp_pos _).le
  · have hratio : v / maxv ≤ 1 := (div_le_one hm).mpr hv
    have harg : v / maxv * Real.exp 1 - Real.exp 1 ≤ 0 := by
      have := mul_le_mul_of_nonneg_right hratio (Real.exp_pos 1).le
      rw [one_mul] at this
      linarith
    have hexp : Real.exp (v / maxv * Real.exp 1 - Real.exp 1) ≤ 1 := by
      calc Real.exp (v / maxv * Real.exp 1 - Real.exp 1) ≤ Real.exp 0 :=
            Real.exp_le_exp.mpr harg
        _ = 1 := Real.exp_zero
    have : (hgt : ℝ) * Real.exp (v / maxv * Real.exp 1 - Real.exp 1) ≤ (hgt : ℝ) := by
      have hcast : (0 : ℝ) ≤ (hgt : ℝ) := Nat.cast_nonneg hgt
      have := mul_le_mul_of_nonneg_left hexp hcast
      simpa using this
    calc ⌊(hgt : ℝ) * Real.exp (v / maxv * Real.exp 1 - Real.exp 1)⌋ ≤ ⌊(hgt : ℝ)⌋ :=
          Int.floor_le_floor this
      _ = (hgt : ℤ) := Int.floor_natCast hgt

lemma renderColumn_at_peak (hgt : ℕ) (maxv : ℝ) (hm : 0 < maxv) :
    renderColumn hgt maxv maxv = (hgt : ℤ) := by
  rw [renderColumn_eq_floor, div_self hm.ne', one_mul, sub_self, Real.exp_zero,
    mul_one, Int.floor_natCast]

/-- C3: with a positive peak, a committed value `v` (so `0 ≤ v ≤ peak`) at any
column renders as `⌊H * exp(v/peak * e − e)⌋`; the peak column itself renders
exactly `H`, and every such rendered integer lies in `[0, H]`. -/
theorem render_formula_peak_range (hgt : ℕ) (maxv v : ℝ) (hm : 0 < maxv)
    (h0 : 0 ≤ v) (hv : v ≤ maxv) :
    renderColumn hgt maxv v =
      ⌊(hgt : ℝ) * Real.exp (v / maxv * Real.exp 1 - Real.exp 1)⌋ ∧
    (v = maxv → renderColumn hgt maxv v = (hgt : ℤ)) ∧
    0 ≤ renderColumn hgt maxv v ∧ renderColumn hgt maxv v ≤ (hgt : ℤ) := by
  refine ⟨renderColumn_eq_floor hgt maxv v, ?_, renderColumn_range hgt maxv v hm h0 hv⟩
  intro hpeak
  rw [hpeak]
  exact renderColumn_at_peak hgt maxv hm

/-- Witness instantiating `render_formula_peak_range` at `H = 100`,
`peak = v = 1`. -/
theorem render_formula_peak_range_witness :
    (0 : ℝ) < 1 ∧ (0 : ℝ) ≤ 1 ∧ (1 : ℝ) ≤ 1 ∧
    (renderColumn 100 1 1 =
      ⌊(100 : ℝ) * Real.exp ((1 : ℝ) / 1 * Real.exp 1 - Real.exp 1)⌋ ∧
    ((1 : ℝ) = 1 → renderColumn 100 1 1 = (100 : ℤ)) ∧
    0 ≤ renderColumn 100 1 1 ∧ renderColumn 100 1 1 ≤ (100 : ℤ)) :=
  ⟨by norm_num, by norm_num, by norm_num,
   render_formula_peak_range 100 1 1 (by norm_num) (by norm_num) (by norm_num)⟩

lemma ingest_cons_some {ctx ctx₁ : DumpWaveContext} {s : ℤ} (rest : List ℤ)
    (h : ingestSample ctx s = some ctx₁) :
    ingest ctx (s :: rest) = ingest ctx₁ rest := by
  conv_lhs => rw [ingest, h]

lemma ingestSample_commit {ctx : DumpWaveContext} {s : ℤ}
    (hfull : ctx.n = ctx.c) (hcol : ctx.col < ctx.w) :
    ingestSample ctx s = some
      { ctx with
        values := ctx.values.set ctx.col (Real.sqrt (accumulatedSum ctx s / (ctx.c : ℝ))),
        sum := 0,
        max := max ctx.max (Real.sqrt (accumulatedSum ctx s / (ctx.c : ℝ))),
        col := ctx.col + 1,
        n := 0 } := by
  unfold ingestSample
  rw [if_pos hfull, if_pos hcol]

lemma ingestSample_accum {ctx : DumpWaveContext} {s : ℤ} (hfull : ¬ ctx.n = ctx.c) :
    ingestSample ctx s = some { ctx with sum := accumulatedSum ctx s, n := ctx.n + 1 } := by
  unfold ingestSample
  rw [if_neg hfull]

lemma ingest_clock (samples : List ℤ) : ∀ ctx : DumpWaveContext,
    ctx.n ≤ ctx.c →
    ctx.col * (ctx.c + 1) + ctx.n + samples.length ≤ ctx.w * (ctx.c + 1) + ctx.c →
    ∃ ctx', ingest ctx samples = some ctx' ∧
      ctx'.c = ctx.c ∧ ctx'.w = ctx.w ∧ ctx'.h = ctx.h ∧ ctx'.n ≤ ctx'.c ∧
      ctx'.col * (ctx.c + 1) + ctx'.n = ctx.col * (ctx.c + 1) + ctx.n + samples.length := by
  induction samples with
  | nil =>
    intro ctx hn _
    exact ⟨ctx, rfl, rfl, rfl, rfl, hn, by simp⟩
  | cons s rest ih =>
    intro ctx hn hbound
    simp only [List.length_cons] at hbound
    by_cases hfull : ctx.n = ctx.c
    · have hcol : ctx.col < ctx.w := by
        have hmul : ctx.col * (ctx.c + 1) < ctx.w * (ctx.c + 1) := by omega
        exact Nat.lt_of_mul_lt_mul_right hmul
      rw [ingest_cons_some rest (ingestSample_commit hfull hcol)]
      have hsm : (ctx.col + 1) * (ctx.c + 1) = ctx.col * (ctx.c + 1) + (ctx.c + 1) :=
        Nat.succ_mul _ _
      obtain ⟨ctx', hing, hc, hw, hh, hn', hclock⟩ :=
        ih { ctx with
              values := ctx.values.set ctx.col
                (Real.sqrt (accumulatedSum ctx s / (ctx.c : ℝ))),
              sum := 0,
              max := max ctx.max (Real.sqrt (accumulatedSum ctx s / (ctx.c : ℝ))),
              col := ctx.col + 1,
              n := 0 }
          (Nat.zero_le _)
          (by
            show (ctx.col + 1) * (ctx.c + 1) + 0 + rest.length ≤
              ctx.w * (ctx.c + 1) + ctx.c
            omega)
      have hclock' : ctx'.col * (ctx.c + 1) + ctx'.n =
          (ctx.col + 1) * (ctx.c + 1) + 0 + rest.length := hclock
      exact ⟨ctx', hing, hc, hw, hh, hn', by
        clear hclock
        simp only [List.length_cons]
        omega⟩
    · have hlt : ctx.n < ctx.c := lt_of_le_of_ne hn hfull
      rw [ingest_cons_some rest (ingestSample_accum hfull)]
      obtain ⟨ctx', hing, hc, hw, hh, hn', hclock⟩ :=
        ih { ctx with sum := accumulatedSum ctx s, n := ctx.n + 1 }
          (by
            show ctx.n + 1 ≤ ctx.c
            omega)
          (by
            show ctx.col * (ctx.c + 1) + (ctx.n + 1) + rest.length ≤
              ctx.w * (ctx.c + 1) + ctx.c
            omega)
      have hclock' : ctx'.col * (ctx.c + 1) + ctx'.n =
          ctx.col * (ctx.c + 1) + (ctx.n + 1) + rest.length := hclock
      exact ⟨ctx', hing, hc, hw, hh, hn', by
        clear hclock
        simp only [List.length_cons]
        omega⟩

/-- C1 (amended): with window option `C > 0`, the post-increment boundary
check commits one RMS value after every `C + 1` consecutive samples, so after
a stream of `L` samples the column cursor equals `⌊L / (C+1)⌋` — provided
`L ≤ W*(C+1) + C`, i.e. `⌊L / (C+1)⌋ ≤ W`; beyond that the filter aborts on
`av_assert0(col < width)` rather than capping the cursor. -/
theorem column_after_stream (w hgt c : ℕ) (raw : List ℝ) (samples : List ℤ)
    (_hc : 0 < c) (hlen : samples.length ≤ w * (c + 1) + c) :
    ∃ ctx', ingest (initContext w hgt c raw) samples = some ctx' ∧
      ctx'.col = samples.length / (c + 1) := by
  obtain ⟨ctx', hing, hc', hw', hh', hn', hclock⟩ :=
    ingest_clock samples (initContext w hgt c raw) (Nat.zero_le _)
      (by simpa [initContext] using hlen)
  refine ⟨ctx', hing, ?_⟩
  simp only [initContext] at hclock hc'
  have hnlt : ctx'.n < c + 1 := by omega
  have hL : ctx'.col * (c + 1) + ctx'.n = samples.length := by omega
  rw [← hL, Nat.add_comm, mul_comm ctx'.col (c + 1),
    Nat.add_mul_div_left _ _ (Nat.succ_pos c)]
  simp [Nat.div_eq_of_lt hnlt]

/-- Witness instantiating `column_after_stream`: `W = 1`, `C = 1`, two zero
samples, yielding column cursor `⌊2 / 2⌋ = 1`. -/
theorem column_after_stream_witness :
    0 < 1 ∧ [(0 : ℤ), 0].length ≤ 1 * (1 + 1) + 1 ∧
    ∃ ctx', ingest (initContext 1 240 1 [0]) [0, 0] = some ctx' ∧
      ctx'.col = [(0 : ℤ), 0].length / (1 + 1) :=
  ⟨by norm_num, by norm_num,
   column_after_stream 1 240 1 [0] [0, 0] (by norm_num) (by norm_num)⟩

/-- Counterexample to C1 as stated: with `W = 1`, `C = 1` and a single
sample (`L = 1`), the claim predicts `col = min (⌊L/C⌋) W = 1`, but the code
leaves `col = 0` — the post-increment check `(*n)++ == max_samples` does not
fire until the second sample of a window. -/
theorem column_floor_claim_false :
    ∃ ctx', ingest (initContext 1 240 1 [0]) [0] = some ctx' ∧
      ctx'.col ≠ min ([(0 : ℤ)].length / 1) 1 := by
  refine ⟨{ w := 1, h := 240, c := 1, col := 0, n := 1, sum := 0, max := 0,
            values := [0] }, ?_, by norm_num⟩
  rw [ingest_cons_some [] (ingestSample_accum
    ((by simp [initContext]) :
      ¬ (initContext 1 240 1 [0]).n = (initContext 1 240 1 [0]).c))]
  unfold ingest
  simp [initContext, accumulatedSum, processSample]

lemma ingest_cons_none {ctx : DumpWaveContext} {s : ℤ} (rest : List ℤ)
    (h : ingestSample ctx s = none) : ingest ctx (s :: rest) = none := by
  conv_lhs => rw [ingest, h]


lemma get_set_self (l : List ℝ) (i : ℕ) (a : ℝ) (hi : i < (l.set i a).length) :
    (l.set i a).get ⟨i, hi⟩ = a := by
  simp [List.get_eq_getElem, List.getElem_set]

lemma get_set_other (l : List ℝ) (i j : ℕ) (a : ℝ) (hne : i ≠ j)
    (hj : j < (l.set i a).length) (hj' : j < l.length) :
    (l.set i a).get ⟨j, hj⟩ = l.get ⟨j, hj'⟩ := by
  simp [List.get_eq_getElem, List.getElem_set, hne]

lemma ingestSample_inv {ctx ctx' : DumpWaveContext} {s : ℤ}
    (hI : LoopInv ctx) (h : ingestSample ctx s = some ctx') :
    LoopInv ctx' ∧ ctx.max ≤ ctx'.max ∧ ctx'.w = ctx.w ∧ ctx'.h = ctx.h ∧
      ctx'.c = ctx.c := by
  obtain ⟨hlen, hcw, hm0, hvals, hzero, hatt⟩ := hI
  by_cases hfull : ctx.n = ctx.c
  · by_cases hcol : ctx.col < ctx.w
    · rw [ingestSample_commit hfull hcol] at h
      obtain rfl := Option.some.inj h
      refine ⟨⟨?_, ?_, ?_, ?_, ?_, ?_⟩, le_max_left _ _, rfl, rfl, rfl⟩
      · show (ctx.values.set ctx.col _).length = ctx.w
        rw [List.length_set]
        exact hlen
      · show ctx.col + 1 ≤ ctx.w
        exact hcol
      · show (0 : ℝ) ≤ max ctx.max _
        exact le_trans hm0 (le_max_left _ _)
      · show ∀ i : ℕ, i < ctx.col + 1 → _
        intro i hic hilen
        have hilen' : i < ctx.values.length := by
          simpa [List.length_set] using hilen
        by_cases hie : i = ctx.col
        · subst hie
          rw [get_set_self]
          exact ⟨Real.sqrt_nonneg _, le_max_right _ _⟩
        · have hlt : i < ctx.col := by omega
          rw [get_set_other ctx.values ctx.col i _ (Ne.symm hie) hilen hilen']
          obtain ⟨h1, h2⟩ := hvals i hlt hilen'
          exact ⟨h1, le_trans h2 (le_max_left _ _)⟩
      · show ctx.col + 1 = 0 → _
        intro hcontra
        exact absurd hcontra (Nat.succ_ne_zero _)
      · intro _
        have hcollen : ctx.col <
            (ctx.values.set ctx.col
              (Real.sqrt (accumulatedSum ctx s / (ctx.c : ℝ)))).length := by
          simpa [List.length_set, hlen] using hcol
        rcases le_total ctx.max (Real.sqrt (accumulatedSum ctx s / (ctx.c : ℝ)))
          with hle | hle
        · refine ⟨ctx.col, hcollen, Nat.lt_succ_self _, ?_⟩
          rw [get_set_self]
          exact (max_eq_right hle).symm
        · rcases Nat.eq_zero_or_pos ctx.col with hc0 | hcpos
          · have hmax0 : ctx.max = 0 := hzero hc0
            have hs0 : Real.sqrt (accumulatedSum ctx s / (ctx.c : ℝ)) = 0 :=
              le_antisymm (hmax0 ▸ hle) (Real.sqrt_nonneg _)
            refine ⟨ctx.col, hcollen, Nat.lt_succ_self _, ?_⟩
            rw [get_set_self, hs0, hmax0, max_self]
          · obtain ⟨i, hi, hic, hget⟩ := hatt hcpos
            have hilen2 : i <
                (ctx.values.set ctx.col
                  (Real.sqrt (accumulatedSum ctx s / (ctx.c : ℝ)))).length := by
              simpa [List.length_set] using hi
            refine ⟨i, hilen2, Nat.lt_succ_of_lt hic, ?_⟩
            rw [get_set_other ctx.values ctx.col i _
              (Ne.symm (Nat.ne_of_lt hic)) hilen2 hi, hget]
            exact (max_eq_left hle).symm
    · have hnone : ingestSample ctx s = none := by
        unfold ingestSample
        rw [if_pos hfull, if_neg hcol]
      rw [hnone] at h
      exact absurd h (by simp)
  · rw [ingestSample_accum hfull] at h
    obtain rfl := Option.some.inj h
    exact ⟨⟨hlen, hcw, hm0, hvals, hzero, hatt⟩, le_refl _, rfl, rfl, rfl⟩

lemma ingest_inv (samples : List ℤ) : ∀ ctx ctx' : DumpWaveContext,
    LoopInv ctx → ingest ctx samples = some ctx' →
    LoopInv ctx' ∧ ctx.max ≤ ctx'.max ∧ ctx'.w = ctx.w ∧ ctx'.h = ctx.h ∧
      ctx'.c = ctx.c := by
  induction samples with
  | nil =>
    intro ctx ctx' hI h
    obtain rfl := Option.some.inj h
    exact ⟨hI, le_refl _, rfl, rfl, rfl⟩
  | cons s rest ih =>
    intro ctx ctx' hI h
    cases hstep : ingestSample ctx s with
    | none =>
      rw [ingest_cons_none rest hstep] at h
      exact absurd h (by simp)
    | some ctx₁ =>
      rw [ingest_cons_some rest hstep] at h
      obtain ⟨hI₁, hmono₁, hw₁, hh₁, hc₁⟩ := ingestSample_inv hI hstep
      obtain ⟨hI', hmono', hw', hh', hc'⟩ := ih ctx₁ ctx' hI₁ h
      exact ⟨hI', le_trans hmono₁ hmono', hw'.trans hw₁, hh'.trans hh₁,
        hc'.trans hc₁⟩

lemma loopInv_initContext (w hgt c : ℕ) (raw : List ℝ) (hraw : raw.length = w) :
    LoopInv (initContext w hgt c raw) := by
  refine ⟨hraw, Nat.zero_le _, le_refl _, ?_, fun _ => rfl, ?_⟩
  · intro i hi _
    exact absurd hi (Nat.not_lt_zero i)
  · intro hpos
    exact absurd hpos (lt_irrefl 0)

/-- C6: the peak is monotonically non-decreasing across every ingest step,
and after processing a whole stream from a fresh context it equals the
maximum of the committed RMS values: every committed column is bounded by the
peak, the peak is attained by a committed column once one exists, and it is
still 0 when no column was committed. -/
theorem peak_running_max :
    (∀ (ctx ctx' : DumpWaveContext) (s : ℤ),
      ingestSample ctx s = some ctx' → ctx.max ≤ ctx'.max) ∧
    (∀ (w hgt c : ℕ) (raw : List ℝ) (samples : List ℤ) (ctx' : DumpWaveContext),
      raw.length = w →
      ingest (initContext w hgt c raw) samples = some ctx' →
      (∀ i : ℕ, i < ctx'.col → ∀ hi : i < ctx'.values.length,
          ctx'.values.get ⟨i, hi⟩ ≤ ctx'.max) ∧
      (0 < ctx'.col → ∃ i : ℕ, ∃ hi : i < ctx'.values.length, i < ctx'.col ∧
          ctx'.values.get ⟨i, hi⟩ = ctx'.max) ∧
      (ctx'.col = 0 → ctx'.max = 0)) := by
  constructor
  · intro ctx ctx' s hstep
    by_cases hfull : ctx.n = ctx.c
    · by_cases hcol : ctx.col < ctx.w
      · rw [ingestSample_commit hfull hcol] at hstep
        obtain rfl := Option.some.inj hstep
        exact le_max_left _ _
      · have hnone : ingestSample ctx s = none := by
          unfold ingestSample
          rw [if_pos hfull, if_neg hcol]
        rw [hnone] at hstep
        exact absurd hstep (by simp)
    · rw [ingestSample_accum hfull] at hstep
      obtain rfl := Option.some.inj hstep
      exact le_refl _
  · intro w hgt c raw samples ctx' hraw hing
    obtain ⟨⟨_, _, _, hvals, hzero, hatt⟩, _, _, _, _⟩ :=
      ingest_inv samples (initContext w hgt c raw) ctx'
        (loopInv_initContext w hgt c raw hraw) hing
    exact ⟨fun i hi hilen => (hvals i hi hilen).2, hatt, hzero⟩

/-- Witness instantiating `peak_running_max`: a fresh `W = 1`, `C = 1` context
stepped once (monotonicity), and a two-sample zero stream committing one
column (the peak equals the committed maximum). -/
theorem peak_running_max_witness :
    ingestSample (initContext 1 240 1 [0]) 0 =
      some { w := 1, h := 240, c := 1, col := 0, n := 1, sum := 0, max := 0,
             values := [0] } ∧
    (initContext 1 240 1 [0]).max ≤
      ({ w := 1, h := 240, c := 1, col := 0, n := 1, sum := 0, max := 0,
         values := [0] } : DumpWaveContext).max ∧
    ([(0 : ℝ)].length = 1 ∧
    ∃ ctx', ingest (initContext 1 240 1 [0]) [0, 0] = some ctx' ∧
      (∀ i : ℕ, i < ctx'.col → ∀ hi : i < ctx'.values.length,
          ctx'.values.get ⟨i, hi⟩ ≤ ctx'.max)) := by
  have hstep : ingestSample (initContext 1 240 1 [0]) 0 =
      some { w := 1, h := 240, c := 1, col := 0, n := 1, sum := 0, max := 0,
             values := [0] } := by
    rw [ingestSample_accum (by simp [initContext])]
    simp [initContext, accumulatedSum, processSample]
  have hing : ingest (initContext 1 240 1 [0]) [0, 0] =
      some { w := 1, h := 240, c := 1, col := 1, n := 0, sum := 0, max := 0,
             values := [0] } := by
    rw [ingest_cons_some [0] hstep,
      ingest_cons_some [] (ingestSample_commit rfl (by norm_num))]
    unfold ingest
    simp [accumulatedSum, processSample, Real.sqrt_zero]
  refine ⟨hstep, peak_running_max.1 _ _ 0 hstep, rfl, ?_⟩
  exact ⟨_, hing, (peak_running_max.2 1 240 1 [0] [0, 0] _ rfl hing).1⟩

lemma processSample_32767 : processSample 32767 = 1 := by
  unfold processSample
  norm_num [Real.logb_one]

/-- C5 (amended): when the stream commits a value into every one of the `W`
columns and the peak is positive, the rendered sequence consists of exactly
`W` integers, each in `[0, H]`, serialized as their comma-separated join.
(As originally stated — for every stream — the property fails: a shorter
stream leaves never-committed columns holding indeterminate `av_malloc`
residue, which can render outside `[0, H]`; see the counterexample.) -/
theorem render_full_stream_range (w hgt c : ℕ) (raw : List ℝ) (samples : List ℤ)
    (ctx' : DumpWaveContext) (hraw : raw.length = w)
    (hing : ingest (initContext w hgt c raw) samples = some ctx')
    (hfull : ctx'.col = ctx'.w) (hpeak : 0 < ctx'.max) :
    (dumpwave_request_frame ctx').length = w ∧
    (∀ x ∈ dumpwave_request_frame ctx', 0 ≤ x ∧ x ≤ (hgt : ℤ)) ∧
    dumpwave_serialize (dumpwave_request_frame ctx') =
      String.intercalate "," ((dumpwave_request_frame ctx').map toString) := by
  obtain ⟨⟨hlen, hcw, hm0, hvals, hzero, hatt⟩, _, hw', hh', _⟩ :=
    ingest_inv samples _ _ (loopInv_initContext w hgt c raw hraw) hing
  have hw2 : ctx'.w = w := hw'
  have hh2 : ctx'.h = hgt := hh'
  refine ⟨?_, ?_, rfl⟩
  · simp only [dumpwave_request_frame, List.length_map]
    rw [hlen, hw2]
  · intro x hx
    simp only [dumpwave_request_frame] at hx
    obtain ⟨v, hv, hmap⟩ := List.mem_map.mp hx
    obtain ⟨i, hget⟩ := List.mem_iff_get.mp hv
    have hicol : (i : ℕ) < ctx'.col := by
      rw [hfull, ← hlen]
      exact i.isLt
    obtain ⟨h0, hb⟩ := hvals i hicol i.isLt
    have hgv : ctx'.values.get i = v := hget
    rw [hgv] at h0 hb
    rw [← hmap, ← hh2]
    exact renderColumn_range ctx'.h ctx'.max v hpeak h0 hb

lemma ingest_two_full_w1 : ingest (initContext 1 240 1 [0]) [32767, 32767] =
    some { w := 1, h := 240, c := 1, col := 1, n := 0, sum := 0,
           max := Real.sqrt 2, values := [Real.sqrt 2] } := by
  have h1 : ingestSample (initContext 1 240 1 [0]) 32767 =
      some { w := 1, h := 240, c := 1, col := 0, n := 1, sum := 1, max := 0,
             values := [0] } := by
    rw [ingestSample_accum (by simp [initContext])]
    simp [initContext, accumulatedSum, processSample_32767]
  have h2 : ingestSample
      ({ w := 1, h := 240, c := 1, col := 0, n := 1, sum := 1, max := 0,
         values := [0] } : DumpWaveContext) 32767 =
      some { w := 1, h := 240, c := 1, col := 1, n := 0, sum := 0,
             max := Real.sqrt 2, values := [Real.sqrt 2] } := by
    rw [ingestSample_commit rfl (by norm_num)]
    simp [accumulatedSum, processSample_32767]
    norm_num [max_eq_right (Real.sqrt_nonneg 2)]
  rw [ingest_cons_some _ h1, ingest_cons_some _ h2]
  unfold ingest
  rfl



/-- Witness instantiating `render_full_stream_range`: `W = 1`, `C = 1`, the
stream `[32767, 32767]` commits RMS `√2` into the single column, peak `√2`. -/
theorem render_full_stream_range_witness :
    [(0 : ℝ)].length = 1 ∧
    ingest (initContext 1 240 1 [0]) [32767, 32767] = some sqrtTwoCtx ∧
    sqrtTwoCtx.col = sqrtTwoCtx.w ∧ (0 : ℝ) < sqrtTwoCtx.max ∧
    ((dumpwave_request_frame sqrtTwoCtx).length = 1 ∧
     (∀ x ∈ dumpwave_request_frame sqrtTwoCtx, 0 ≤ x ∧ x ≤ (240 : ℤ)) ∧
     dumpwave_serialize (dumpwave_request_frame sqrtTwoCtx) =
       String.intercalate "," ((dumpwave_request_frame sqrtTwoCtx).map toString)) :=
  ⟨rfl, ingest_two_full_w1, rfl, Real.sqrt_pos.mpr (by norm_num),
   render_full_stream_range 1 240 1 [0] [32767, 32767] sqrtTwoCtx rfl
     ingest_two_full_w1 rfl (Real.sqrt_pos.mpr (by norm_num))⟩


lemma ingest_two_overflow : ingest (initContext 2 240 1 [0, 5]) [32767, 32767] =
    some overflowCtx := by
  have h1 : ingestSample (initContext 2 240 1 [0, 5]) 32767 =
      some { w := 2, h := 240, c := 1, col := 0, n := 1, sum := 1, max := 0,
             values := [0, 5] } := by
    rw [ingestSample_accum (by simp [initContext])]
    simp [initContext, accumulatedSum, processSample_32767]
  have h2 : ingestSample
      ({ w := 2, h := 240, c := 1, col := 0, n := 1, sum := 1, max := 0,
         values := [0, 5] } : DumpWaveContext) 32767 = some overflowCtx := by
    rw [ingestSample_commit rfl (by norm_num)]
    simp [accumulatedSum, processSample_32767, overflowCtx]
    norm_num [max_eq_right (Real.sqrt_nonneg 2)]
  rw [ingest_cons_some _ h1, ingest_cons_some _ h2]
  unfold ingest
  rfl

/-- Counterexample to C5 as stated: rendered integers are NOT always within
`[0, H]` for every stream.  With `W = 2, H = 240, C = 1`, malloc residue
`[0, 5]` and the two-sample stream `[32767, 32767]`, only one column is ever
committed; the second rendered integer is `⌊240·exp(5/√2·e − e)⌋ > 240`,
computed from the never-initialized residue value `5`. -/
theorem render_range_claim_false :
    ∃ ctx', ingest (initContext 2 240 1 [0, 5]) [32767, 32767] = some ctx' ∧
      ¬ (∀ x ∈ dumpwave_request_frame ctx', 0 ≤ x ∧ x ≤ (240 : ℤ)) := by
  refine ⟨overflowCtx, ingest_two_overflow, ?_⟩
  intro hall
  have hmem : renderColumn 240 (Real.sqrt 2) 5 ∈ dumpwave_request_frame overflowCtx := by
    simp [dumpwave_request_frame, overflowCtx]
  have hb := (hall _ hmem).2
  have hs2 : Real.sqrt 2 < 1.5 := by
    nlinarith [Real.sq_sqrt (by norm_num : (0 : ℝ) ≤ 2), Real.sqrt_nonneg 2]
  have hs2pos : 0 < Real.sqrt 2 := Real.sqrt_pos.mpr (by norm_num)
  have hdiv : (10 : ℝ) / 3 ≤ 5 / Real.sqrt 2 := by
    rw [div_le_div_iff₀ (by norm_num) hs2pos]
    nlinarith [hs2]
  have he1 : (2.7 : ℝ) < Real.exp 1 := lt_trans (by norm_num) Real.exp_one_gt_d9
  have hmul : (10 : ℝ) / 3 * Real.exp 1 ≤ 5 / Real.sqrt 2 * Real.exp 1 :=
    mul_le_mul_of_nonneg_right hdiv (Real.exp_pos 1).le
  have harg : (6 : ℝ) ≤ 5 / Real.sqrt 2 * Real.exp 1 - Real.exp 1 := by
    linarith
  have hexp : (7 : ℝ) ≤ Real.exp (5 / Real.sqrt 2 * Real.exp 1 - Real.exp 1) := by
    have := Real.add_one_le_exp (5 / Real.sqrt 2 * Real.exp 1 - Real.exp 1)
    linarith
  have h241 : (241 : ℤ) ≤ renderColumn 240 (Real.sqrt 2) 5 := by
    rw [renderColumn_eq_floor, Int.le_floor]
    push_cast
    linarith
  linarith


lemma ingest_two_allzero : ingest (initContext 2 240 1 [0, 0]) [0, 0] =
    some allZeroCtx := by
  have h1 : ingestSample (initContext 2 240 1 [0, 0]) 0 =
      some { w := 2, h := 240, c := 1, col := 0, n := 1, sum := 0, max := 0,
             values := [0, 0] } := by
    rw [ingestSample_accum (by simp [initContext])]
    simp [initContext, accumulatedSum, processSample]
  have h2 : ingestSample
      ({ w := 2, h := 240, c := 1, col := 0, n := 1, sum := 0, max := 0,
         values := [0, 0] } : DumpWaveContext) 0 = some allZeroCtx := by
    rw [ingestSample_commit rfl (by norm_num)]
    simp [accumulatedSum, processSample, allZeroCtx, Real.sqrt_zero]
  rw [ingest_cons_some _ h1, ingest_cons_some _ h2]
  unfold ingest
  rfl

lemma exp_exp_one_lt_240 : Real.exp (Real.exp 1) < 240 := by
  have h1 : Real.exp 1 < 3 := lt_trans Real.exp_one_lt_d9 (by norm_num)
  have h2 : Real.exp (Real.exp 1) < Real.exp 3 := Real.exp_lt_exp.mpr h1
  have h3 : Real.exp 3 = Real.exp 1 ^ 3 := by
    rw [show (3 : ℝ) = ((3 : ℕ) : ℝ) * 1 by norm_num, Real.exp_nat_mul]
  have h4 : Real.exp 1 ^ 3 < 2.7182818286 ^ 3 :=
    pow_lt_pow_left₀ Real.exp_one_lt_d9 (Real.exp_pos 1).le (by norm_num)
  have h5 : (2.7182818286 : ℝ) ^ 3 < 240 := by norm_num
  linarith

lemma renderColumn_zero_peak_pos : (1 : ℤ) ≤ renderColumn 240 0 0 := by
  rw [renderColumn_eq_floor, Int.le_floor]
  have hsimp : (0 : ℝ) / 0 * Real.exp 1 - Real.exp 1 = -Real.exp 1 := by
    rw [zero_div, zero_mul, zero_sub]
  rw [hsimp, Real.exp_neg]
  have hpos := Real.exp_pos (Real.exp 1)
  have h1 : (1 : ℝ) ≤ 240 / Real.exp (Real.exp 1) :=
    (one_le_div hpos).mpr exp_exp_one_lt_240.le
  rw [div_eq_mul_inv] at h1
  push_cast
  linarith

/-- C4 (code-bug evidence): for the all-zero input of length `W*C`
(`W = 2, C = 1`), every committed RMS value is 0 and the peak is 0 — but the
code has NO `peak == 0` fallback: rendering computes `values[i] / max` with
`max == 0` (a division by zero; NaN under IEEE and an undefined
double-to-int conversion in the C code).  Under the total real-division
semantics used here (`x / 0 = 0`) every column renders `⌊240·exp(−e)⌋ ≥ 1`,
so the output is not the claimed all-zero fallback. -/
theorem allzero_no_peak_fallback :
    ingest (initContext 2 240 1 [0, 0]) [0, 0] = some allZeroCtx ∧
    allZeroCtx.max = 0 ∧
    (∀ i : ℕ, i < allZeroCtx.col → ∀ hi : i < allZeroCtx.values.length,
        allZeroCtx.values.get ⟨i, hi⟩ = 0) ∧
    dumpwave_request_frame allZeroCtx ≠ List.replicate 2 0 := by
  refine ⟨ingest_two_allzero, rfl, ?_, ?_⟩
  · intro i hi hilen
    have hi' : i < 1 := hi
    have h0 : i = 0 := by omega
    subst h0
    rfl
  · intro heq
    have hr := renderColumn_zero_peak_pos
    simp only [dumpwave_request_frame, allZeroCtx, List.map, List.replicate,
      List.cons.injEq, and_true] at heq
    rw [heq.1] at hr
    exact absurd hr (by norm_num)
